import Mathlib

/-!
Verification development for the ankiconnect-rs note/query construction and
validation subsystem. Strings are embedded as lists of Unicode characters
(`List Char`), mirroring iteration over Rust `char`s.
-/

namespace AnkiRs

/-- Embedding of the predicate `needs_escape` inside
`QueryBuilder::escape_special_chars` (src/builders/query.rs): the eight
characters that receive a backslash. -/
def needs_escape (c : Char) : Bool :=
  c = '"' || c = '*' || c = '_' || c = '\\' || c = '(' || c = ')' || c = ':' || c = '-'

/-- Embedding of `QueryBuilder::escape_special_chars` (src/builders/query.rs):
walk the characters of the input, pushing a backslash before each character
satisfying `needs_escape`, then the character itself. -/
def escape_special_chars : List Char → List Char
  | [] => []
  | c :: cs =>
    if needs_escape c then '\\' :: c :: escape_special_chars cs
    else c :: escape_special_chars cs

/-- Specification-side description of the escaping rule, following the words of
the spec: each special character is mapped to a backslash followed by itself,
every other character is mapped to itself. -/
def specEscapeChar (c : Char) : List Char :=
  if needs_escape c then ['\\', c] else [c]

/-- Specification-side inverse of the escaping rule: remove one backslash
immediately preceding each special character. -/
def unescapeSpecialChars : List Char → List Char
  | [] => []
  | c :: rest =>
    if c = '\\' then
      match rest with
      | [] => ['\\']
      | d :: rest2 =>
        if needs_escape d then d :: unescapeSpecialChars rest2
        else '\\' :: unescapeSpecialChars (d :: rest2)
    else c :: unescapeSpecialChars rest

/-- Embedding of `Query` (src/builders/query.rs): an immutable wrapper around
the built query string. -/
structure Query where
  query_string : List Char
deriving DecidableEq, Repr

/-- Embedding of the `QueryBuilder` state (src/builders/query.rs): ordered
sequence of already-formatted parts, pending-negation flag, and the optional
field name awaiting content. -/
structure QueryBuilder where
  parts : List (List Char)
  negated : Bool
  current_field : Option (List Char)
deriving DecidableEq, Repr

/-- Embedding of `QueryBuilder::new`. -/
def QueryBuilder.new : QueryBuilder :=
  { parts := [], negated := false, current_field := none }

/-- Embedding of `QueryBuilder::add_part`: push the part, prefixed with a dash
when the negation flag is set, and reset the flag. -/
def QueryBuilder.add_part (b : QueryBuilder) (part : List Char) : QueryBuilder :=
  if b.negated then { b with parts := b.parts ++ ['-' :: part], negated := false }
  else { b with parts := b.parts ++ [part] }

/-- Embedding of `QueryBuilder::text`: escape and append as a bare term. -/
def QueryBuilder.text (b : QueryBuilder) (t : List Char) : QueryBuilder :=
  b.add_part (escape_special_chars t)

/-- Embedding of `QueryBuilder::has_tag`: append a tag term with escaping. -/
def QueryBuilder.has_tag (b : QueryBuilder) (tag : List Char) : QueryBuilder :=
  b.add_part (("tag:").toList ++ escape_special_chars tag)

/-- Embedding of `QueryBuilder::in_deck`: append a deck term with escaping,
wrapped in double quotes when the deck name contains a space. -/
def QueryBuilder.in_deck (b : QueryBuilder) (deck : List Char) : QueryBuilder :=
  if ' ' ∈ deck then
    b.add_part (("deck:").toList ++ '"' :: (escape_special_chars deck ++ ['"']))
  else
    b.add_part (("deck:").toList ++ escape_special_chars deck)

/-- Embedding of `QueryBuilder::not`: arm the pending-negation flag. -/
def QueryBuilder.not (b : QueryBuilder) : QueryBuilder :=
  { b with negated := true }

/-- Embedding of `QueryBuilder::and`: a no-op for readability. -/
def QueryBuilder.and (b : QueryBuilder) : QueryBuilder :=
  b

/-- Embedding of `QueryBuilder::or`: append the literal token. -/
def QueryBuilder.or (b : QueryBuilder) : QueryBuilder :=
  b.add_part (("or").toList)

/-- Embedding of Rust `Vec::join(" ")` on the accumulated parts: concatenation
with a single space between consecutive parts. -/
def joinWithSpace : List (List Char) → List Char
  | [] => []
  | [p] => p
  | p :: ps => p ++ ' ' :: joinWithSpace ps

/-- Embedding of `QueryBuilder::build`: join all parts with single spaces. -/
def QueryBuilder.build (b : QueryBuilder) : Query :=
  { query_string := joinWithSpace b.parts }

/-- Embedding of `FieldQueryBuilder` (src/builders/query.rs). In the source the
field name lives in `builder.current_field` and is always `Some` when a
`FieldQueryBuilder` exists (it is only created by `field`/`in_field`, which set
it); the embedding records that invariant by storing the name directly. -/
structure FieldQueryBuilder where
  builder : QueryBuilder
  fieldName : List Char
deriving DecidableEq, Repr

/-- Embedding of `QueryBuilder::field`: store the field name and transition to
the field sub-builder. -/
def QueryBuilder.field (b : QueryBuilder) (name : List Char) : FieldQueryBuilder :=
  { builder := { b with current_field := some name }, fieldName := name }

/-- Embedding of `FieldQueryBuilder::with_content`: take the pending field
name, escape the content, and append a field term. -/
def FieldQueryBuilder.with_content (f : FieldQueryBuilder) (content : List Char) : QueryBuilder :=
  ({ f.builder with current_field := none }).add_part
    (f.fieldName ++ ':' :: escape_special_chars content)

/-- Embedding of `FieldQueryBuilder::contains`. -/
def FieldQueryBuilder.contains (f : FieldQueryBuilder) (content : List Char) : QueryBuilder :=
  f.with_content content

/-- Embedding of `FieldQueryBuilder::is`. -/
def FieldQueryBuilder.is (f : FieldQueryBuilder) (content : List Char) : QueryBuilder :=
  f.with_content content

lemma escape_special_chars_eq_flatMap (s : List Char) :
    escape_special_chars s = s.flatMap specEscapeChar := by
  induction s with
  | nil => rfl
  | cons c cs ih =>
    by_cases h : needs_escape c = true <;>
      simp [escape_special_chars, specEscapeChar, h, ih]

lemma unescape_escape (s : List Char) :
    unescapeSpecialChars (escape_special_chars s) = s := by
  induction s with
  | nil => rfl
  | cons c cs ih =>
    by_cases h : needs_escape c = true
    · simp [escape_special_chars, h, unescapeSpecialChars, ih]
    · have hc : ¬ (c = '\\') := by
        intro hcc
        rw [hcc] at h
        exact h (by decide)
      rw [show escape_special_chars (c :: cs) = c :: escape_special_chars cs by
        simp [escape_special_chars, h]]
      rw [unescapeSpecialChars.eq_def]
      simp [hc, ih]

/-- C1: every user-supplied literal passed to `text`, `has_tag`, `in_deck`,
`contains` or `is` is run through `escape_special_chars`, which inserts exactly
one backslash immediately before each occurrence of a character in the set of
eight specials and leaves every other character unchanged and in order (stated
as the per-character flatMap characterisation together with the round-trip
inverse), and each of those methods appends exactly that escaped literal
(under its structural wrapper). -/
theorem escape_applied_to_user_literals :
    (∀ s : List Char, escape_special_chars s = s.flatMap specEscapeChar) ∧
    (∀ s : List Char, unescapeSpecialChars (escape_special_chars s) = s) ∧
    (∀ (b : QueryBuilder) (t : List Char),
      (b.text t).parts = b.parts ++
        [if b.negated then '-' :: escape_special_chars t else escape_special_chars t]) ∧
    (∀ (b : QueryBuilder) (tag : List Char),
      (b.has_tag tag).parts = b.parts ++
        [if b.negated then '-' :: (("tag:").toList ++ escape_special_chars tag)
         else ("tag:").toList ++ escape_special_chars tag]) ∧
    (∀ (b : QueryBuilder) (deck : List Char),
      (b.in_deck deck).parts = b.parts ++
        [if b.negated then
            '-' :: (if ' ' ∈ deck then
              ("deck:").toList ++ '"' :: (escape_special_chars deck ++ ['"'])
            else ("deck:").toList ++ escape_special_chars deck)
         else
            (if ' ' ∈ deck then
              ("deck:").toList ++ '"' :: (escape_special_chars deck ++ ['"'])
            else ("deck:").toList ++ escape_special_chars deck)]) ∧
    (∀ (f : FieldQueryBuilder) (content : List Char),
      (f.contains content).parts = f.builder.parts ++
        [if f.builder.negated then
            '-' :: (f.fieldName ++ ':' :: escape_special_chars content)
         else f.fieldName ++ ':' :: escape_special_chars content] ∧
      f.is content = f.contains content) := by
  refine ⟨escape_special_chars_eq_flatMap, unescape_escape, ?_, ?_, ?_, ?_⟩
  · intro b t
    by_cases h : b.negated <;>
      simp [QueryBuilder.text, QueryBuilder.add_part, h]
  · intro b tag
    by_cases h : b.negated <;>
      simp [QueryBuilder.has_tag, QueryBuilder.add_part, h]
  · intro b deck
    by_cases hsp : ' ' ∈ deck <;> by_cases h : b.negated <;>
      simp [QueryBuilder.in_deck, QueryBuilder.add_part, h, hsp]
  · intro f content
    refine ⟨?_, rfl⟩
    by_cases h : f.builder.negated <;>
      simp [FieldQueryBuilder.contains, FieldQueryBuilder.with_content,
        QueryBuilder.add_part, h]

/-- C4: consecutive `not()` calls collapse to one armed flag; the next appended
part is prefixed with a single dash and the flag resets, so the part after that
is appended unprefixed; and the documented call sequence builds exactly
the string given in the spec. -/
theorem not_negates_exactly_next_part :
    (∀ b : QueryBuilder, b.not.not = b.not) ∧
    (∀ (b : QueryBuilder) (p : List Char),
      (b.not.add_part p).parts = b.parts ++ [('-' :: p)] ∧
      (b.not.add_part p).negated = false) ∧
    (∀ (b : QueryBuilder) (p q : List Char),
      ((b.not.add_part p).add_part q).parts = b.parts ++ [('-' :: p), q]) ∧
    ((((QueryBuilder.new.field (("Front").toList)).contains
        (("dog").toList)).and.not.has_tag (("marked").toList)).build =
      { query_string := ("Front:dog -tag:marked").toList }) := by
  refine ⟨?_, ?_, ?_, by decide⟩
  · intro b
    simp [QueryBuilder.not]
  · intro b p
    simp [QueryBuilder.not, QueryBuilder.add_part]
  · intro b p q
    simp [QueryBuilder.not, QueryBuilder.add_part]

lemma joinWithSpace_append_singleton (ps : List (List Char)) (p : List Char) :
    joinWithSpace (ps ++ [p]) =
      if ps = [] then p else joinWithSpace ps ++ ' ' :: p := by
  induction ps with
  | nil => rfl
  | cons a t ih =>
    cases t with
    | nil => rfl
    | cons b t2 =>
      have ha : joinWithSpace ((a :: b :: t2) ++ [p]) =
          a ++ ' ' :: joinWithSpace ((b :: t2) ++ [p]) := rfl
      rw [ha, ih]
      simp [joinWithSpace, List.append_assoc]

/-- C10: a fresh builder builds the empty query string; `build` joins the
accumulated parts with single spaces; a pending `not()` with no subsequent
appended part has no effect on the output; and appending a part extends the
built string by a space-separated part (or starts it when empty). -/
theorem build_of_empty_builder_is_empty :
    (QueryBuilder.new.build = { query_string := [] }) ∧
    (∀ b : QueryBuilder, b.not.build = b.build) ∧
    (∀ b : QueryBuilder, b.build.query_string = joinWithSpace b.parts) ∧
    (∀ (b : QueryBuilder) (p : List Char), b.negated = false →
      ((b.add_part p).build).query_string =
        if b.parts = [] then p else b.build.query_string ++ ' ' :: p) := by
  refine ⟨rfl, ?_, fun _ => rfl, ?_⟩
  · intro b
    simp [QueryBuilder.not, QueryBuilder.build]
  · intro b p h
    simp [QueryBuilder.add_part, h, QueryBuilder.build, joinWithSpace_append_singleton]

/-- Witness for C10: instantiated at a concrete builder holding one part. -/
theorem build_of_empty_builder_is_empty_witness :
    ((QueryBuilder.new.text (("a").toList)).add_part (("b").toList)).build.query_string =
      (QueryBuilder.new.text (("a").toList)).build.query_string ++ ' ' :: (("b").toList) := by
  have h := (build_of_empty_builder_is_empty).2.2.2
    (QueryBuilder.new.text (("a").toList)) (("b").toList) (by decide)
  rw [if_neg (by decide)] at h
  exact h

/-- Embedding of `AnkiConnectError` (src/error.rs): the structured error
taxonomy for remote failures. -/
inductive AnkiConnectError
  | unsupportedAction
  | emptyQuestion
  | modelNotFound (name : List Char)
  | deckNotFound (name : List Char)
  | duplicateNote
  | emptyNote
  | missingMediaField
  | modelNameExists
  | invalidColumnId (id : List Char)
  | invalidCardOrder (order : List Char)
  | other (msg : List Char)
deriving DecidableEq, Repr

/-- Embedding of Rust `char::is_whitespace`: the Unicode White_Space
code points. -/
def rustIsWhitespace (c : Char) : Bool :=
  c.toNat == 0x09 || c.toNat == 0x0A || c.toNat == 0x0B || c.toNat == 0x0C ||
  c.toNat == 0x0D || c.toNat == 0x20 || c.toNat == 0x85 || c.toNat == 0xA0 ||
  c.toNat == 0x1680 || (decide (0x2000 ≤ c.toNat) && decide (c.toNat ≤ 0x200A)) ||
  c.toNat == 0x2028 || c.toNat == 0x2029 || c.toNat == 0x202F ||
  c.toNat == 0x205F || c.toNat == 0x3000

/-- Embedding of Rust `str::trim`: remove leading and trailing whitespace. -/
def rustTrim (s : List Char) : List Char :=
  ((s.dropWhile rustIsWhitespace).reverse.dropWhile rustIsWhitespace).reverse

/-- Fuel-driven worker for `trim_start_matches`; each successful strip removes
at least one character, so fuel equal to the length of the string suffices. -/
def trimStartMatchesAux (pat : List Char) : Nat → List Char → List Char
  | 0, s => s
  | fuel + 1, s =>
    if pat.isPrefixOf s && !(pat.isEmpty) then
      trimStartMatchesAux pat fuel (s.drop pat.length)
    else s

/-- Embedding of Rust `str::trim_start_matches`: repeatedly remove the pattern
from the start of the string while it remains a leading match. -/
def trim_start_matches (pat s : List Char) : List Char :=
  trimStartMatchesAux pat s.length s

/-- Embedding of `parse_anki_connect_error` (src/http.rs): ordered
prefix/equality matching of the raw error message against the known table,
with `other` as the catch-all. -/
def parse_anki_connect_error (error : List Char) : AnkiConnectError :=
  if (("deck was not found: ").toList).isPrefixOf error then
    .deckNotFound (rustTrim (trim_start_matches (("deck was not found: ").toList) error))
  else if (("model was not found: ").toList).isPrefixOf error then
    .modelNotFound (rustTrim (trim_start_matches (("model was not found: ").toList) error))
  else if error == ("cannot create note because it is a duplicate").toList then
    .duplicateNote
  else if error == ("cannot create note because it is empty").toList then
    .emptyNote
  else if (("invalid columnId: ").toList).isPrefixOf error then
    .invalidColumnId (rustTrim (trim_start_matches (("invalid columnId: ").toList) error))
  else if (("invalid card order: ").toList).isPrefixOf error then
    .invalidCardOrder (rustTrim (trim_start_matches (("invalid card order: ").toList) error))
  else if error == ("You must provide a \"data\", \"path\", or \"url\" field.").toList then
    .missingMediaField
  else if error == ("Model name already exists").toList then
    .modelNameExists
  else if error ==
      ("The field values you have provided would make an empty question on all cards.").toList then
    .emptyQuestion
  else if error == ("unsupported action").toList then
    .unsupportedAction
  else
    .other error

/-- True when the raw message matches some row of the classification table. -/
def matchesSomeRow (s : List Char) : Bool :=
  (("deck was not found: ").toList).isPrefixOf s ||
  (("model was not found: ").toList).isPrefixOf s ||
  s == ("cannot create note because it is a duplicate").toList ||
  s == ("cannot create note because it is empty").toList ||
  (("invalid columnId: ").toList).isPrefixOf s ||
  (("invalid card order: ").toList).isPrefixOf s ||
  s == ("You must provide a \"data\", \"path\", or \"url\" field.").toList ||
  s == ("Model name already exists").toList ||
  s == ("The field values you have provided would make an empty question on all cards.").toList ||
  s == ("unsupported action").toList

lemma trimStartMatchesAux_of_no_match (pat : List Char) (fuel : Nat) (s : List Char)
    (h : pat.isPrefixOf s = false) : trimStartMatchesAux pat fuel s = s := by
  cases fuel <;> simp [trimStartMatchesAux, h]

lemma trim_start_matches_append (pat name : List Char) (hne : pat ≠ [])
    (h : pat.isPrefixOf name = false) :
    trim_start_matches pat (pat ++ name) = name := by
  unfold trim_start_matches
  cases hp : pat with
  | nil => exact absurd hp hne
  | cons c cs =>
    rw [← hp]
    have hlen : (pat ++ name).length = cs.length + name.length + 1 := by
      simp [hp, Nat.add_comm, Nat.add_assoc, Nat.add_left_comm]
    rw [hlen]
    have hpre : pat.isPrefixOf (pat ++ name) = true :=
      List.isPrefixOf_iff_prefix.mpr (List.prefix_append _ _)
    have hemp : pat.isEmpty = false := by
      rw [hp]; rfl
    simp only [trimStartMatchesAux, hpre, hemp, Bool.not_false, Bool.and_true, if_true,
      List.drop_left]
    exact trimStartMatchesAux_of_no_match pat _ name h

/-- C2 counterexample: for name = "X " (with a trailing space) the claim
predicts DeckNotFound("X "), but the classifier trims whitespace from the
carried suffix and returns DeckNotFound("X"). -/
theorem parse_error_suffix_not_verbatim :
    parse_anki_connect_error ((("deck was not found: ").toList) ++ (("X ").toList)) =
      AnkiConnectError.deckNotFound (("X").toList) ∧
    parse_anki_connect_error ((("deck was not found: ").toList) ++ (("X ").toList)) ≠
      AnkiConnectError.deckNotFound (("X ").toList) := by
  decide

/-- C2 (amended): the classifier is a total function implementing the table,
where the suffix carried by a prefix row is the raw suffix only after removing
any further leading copies of the prefix and trimming surrounding whitespace:
for name that does not itself start with the prefix and is unchanged by
trimming, each prefix row carries name verbatim; every exact row yields its
variant; and every string matching no row yields Other with the input
unchanged. -/
theorem parse_error_implements_table :
    (∀ name : List Char, (("deck was not found: ").toList).isPrefixOf name = false →
      rustTrim name = name →
      parse_anki_connect_error ((("deck was not found: ").toList) ++ name) =
        AnkiConnectError.deckNotFound name) ∧
    (∀ name : List Char, (("model was not found: ").toList).isPrefixOf name = false →
      rustTrim name = name →
      parse_anki_connect_error ((("model was not found: ").toList) ++ name) =
        AnkiConnectError.modelNotFound name) ∧
    (∀ id : List Char, (("invalid columnId: ").toList).isPrefixOf id = false →
      rustTrim id = id →
      parse_anki_connect_error ((("invalid columnId: ").toList) ++ id) =
        AnkiConnectError.invalidColumnId id) ∧
    (∀ order : List Char, (("invalid card order: ").toList).isPrefixOf order = false →
      rustTrim order = order →
      parse_anki_connect_error ((("invalid card order: ").toList) ++ order) =
        AnkiConnectError.invalidCardOrder order) ∧
    (parse_anki_connect_error (("cannot create note because it is a duplicate").toList) =
      AnkiConnectError.duplicateNote) ∧
    (parse_anki_connect_error (("cannot create note because it is empty").toList) =
      AnkiConnectError.emptyNote) ∧
    (parse_anki_connect_error (("You must provide a \"data\", \"path\", or \"url\" field.").toList) =
      AnkiConnectError.missingMediaField) ∧
    (parse_anki_connect_error (("Model name already exists").toList) =
      AnkiConnectError.modelNameExists) ∧
    (parse_anki_connect_error
        (("The field values you have provided would make an empty question on all cards.").toList) =
      AnkiConnectError.emptyQuestion) ∧
    (parse_anki_connect_error (("unsupported action").toList) =
      AnkiConnectError.unsupportedAction) ∧
    (∀ s : List Char, matchesSomeRow s = false →
      parse_anki_connect_error s = AnkiConnectError.other s) := by
  refine ⟨?_, ?_, ?_, ?_, by decide, by decide, by decide, by decide, by decide, by decide, ?_⟩
  · intro name hpre htrim
    have h1 : (("deck was not found: ").toList).isPrefixOf
        ((("deck was not found: ").toList) ++ name) = true :=
      List.isPrefixOf_iff_prefix.mpr (List.prefix_append _ _)
    simp only [parse_anki_connect_error, h1, if_true]
    rw [trim_start_matches_append _ _ (by decide) hpre, htrim]
  · intro name hpre htrim
    have h0 : (("deck was not found: ").toList).isPrefixOf
        ((("model was not found: ").toList) ++ name) = false := rfl
    have h1 : (("model was not found: ").toList).isPrefixOf
        ((("model was not found: ").toList) ++ name) = true :=
      List.isPrefixOf_iff_prefix.mpr (List.prefix_append _ _)
    simp only [parse_anki_connect_error, h0, h1, Bool.false_eq_true, if_false, if_true]
    rw [trim_start_matches_append _ _ (by decide) hpre, htrim]
  · intro id hpre htrim
    have h0 : (("deck was not found: ").toList).isPrefixOf
        ((("invalid columnId: ").toList) ++ id) = false := rfl
    have h1 : (("model was not found: ").toList).isPrefixOf
        ((("invalid columnId: ").toList) ++ id) = false := rfl
    have h2 : ((("invalid columnId: ").toList) ++ id ==
        ("cannot create note because it is a duplicate").toList) = false := rfl
    have h3 : ((("invalid columnId: ").toList) ++ id ==
        ("cannot create note because it is empty").toList) = false := rfl
    have h4 : (("invalid columnId: ").toList).isPrefixOf
        ((("invalid columnId: ").toList) ++ id) = true :=
      List.isPrefixOf_iff_prefix.mpr (List.prefix_append _ _)
    simp only [parse_anki_connect_error, h0, h1, h2, h3, h4, Bool.false_eq_true, if_false,
      if_true]
    rw [trim_start_matches_append _ _ (by decide) hpre, htrim]
  · intro order hpre htrim
    have h0 : (("deck was not found: ").toList).isPrefixOf
        ((("invalid card order: ").toList) ++ order) = false := rfl
    have h1 : (("model was not found: ").toList).isPrefixOf
        ((("invalid card order: ").toList) ++ order) = false := rfl
    have h2 : ((("invalid card order: ").toList) ++ order ==
        ("cannot create note because it is a duplicate").toList) = false := rfl
    have h3 : ((("invalid card order: ").toList) ++ order ==
        ("cannot create note because it is empty").toList) = false := rfl
    have h4 : (("invalid columnId: ").toList).isPrefixOf
        ((("invalid card order: ").toList) ++ order) = false := rfl
    have h5 : (("invalid card order: ").toList).isPrefixOf
        ((("invalid card order: ").toList) ++ order) = true :=
      List.isPrefixOf_iff_prefix.mpr (List.prefix_append _ _)
    simp only [parse_anki_connect_error, h0, h1, h2, h3, h4, h5, Bool.false_eq_true, if_false,
      if_true]
    rw [trim_start_matches_append _ _ (by decide) hpre, htrim]
  · intro s hs
    simp only [matchesSomeRow, Bool.or_eq_false_iff] at hs
    obtain ⟨⟨⟨⟨⟨⟨⟨⟨⟨g1, g2⟩, g3⟩, g4⟩, g5⟩, g6⟩, g7⟩, g8⟩, g9⟩, g10⟩ := hs
    simp only [parse_anki_connect_error, g1, g2, g3, g4, g5, g6, g7, g8, g9, g10,
      Bool.false_eq_true, if_false]

/-- Witness for C2: the deck row at a concrete name and the catch-all at a
concrete unrecognized message. -/
theorem parse_error_implements_table_witness :
    parse_anki_connect_error ((("deck was not found: ").toList) ++ (("NonExistingDeck").toList)) =
      AnkiConnectError.deckNotFound (("NonExistingDeck").toList) ∧
    parse_anki_connect_error (("hello").toList) = AnkiConnectError.other (("hello").toList) := by
  obtain ⟨hdeck, -, -, -, -, -, -, -, -, -, hother⟩ := parse_error_implements_table
  exact ⟨hdeck _ (by decide) (by decide), hother _ (by decide)⟩

/-- Embedding of Rust `u8::to_ascii_lowercase` on chars: shift A-Z down into
a-z, leave everything else unchanged. -/
def asciiLower (c : Char) : Char :=
  if 'A' ≤ c ∧ c ≤ 'Z' then Char.ofNat (c.toNat + 32) else c

/-- Embedding of Rust `str::eq_ignore_ascii_case`: equality after ASCII
lowercasing both sides. -/
def eqIgnoreAsciiCase (a b : List Char) : Bool :=
  a.map asciiLower == b.map asciiLower

/-- Embedding of Rust `str::contains` with a string pattern: substring search,
true when the pattern occurs at some position (always true for the empty
pattern). -/
def strContains : List Char → List Char → Bool
  | [], pat => pat.isEmpty
  | c :: t, pat => pat.isPrefixOf (c :: t) || strContains t pat

/-- Embedding of `Field` (src/models/model.rs): a name and an ordinal. -/
structure Field where
  name : List Char
  ord : Nat
deriving DecidableEq, Repr

/-- Embedding of `Field::is_front`: exact name "front" ignoring ASCII case, or
the name contains "front" or "question" (case-sensitive substring). -/
def Field.is_front (f : Field) : Bool :=
  eqIgnoreAsciiCase f.name (("front").toList) ||
  strContains f.name (("front").toList) ||
  strContains f.name (("question").toList)

/-- Embedding of `Field::is_back`: exact name "back" ignoring ASCII case, or
the name contains "back" or "answer" (case-sensitive substring). -/
def Field.is_back (f : Field) : Bool :=
  eqIgnoreAsciiCase f.name (("back").toList) ||
  strContains f.name (("back").toList) ||
  strContains f.name (("answer").toList)

/-- Embedding of `Model` (src/models/model.rs): id, name, ordered fields. -/
structure Model where
  id : Nat
  name : List Char
  fields : List Field
deriving DecidableEq, Repr

/-- Embedding of the variants of `AnkiError` (src/error.rs) reachable from the
embedded code (only `ValidationError` is produced by `Model::new`). -/
inductive AnkiError
  | validationError (msg : List Char)
deriving DecidableEq, Repr

/-- Embedding of the duplicate scan in `Model::new`: walk the fields keeping a
set of names already seen, returning the first name seen twice. -/
def findDupName (seen : List (List Char)) : List Field → Option (List Char)
  | [] => none
  | f :: rest =>
    if f.name ∈ seen then some f.name else findDupName (f.name :: seen) rest

/-- Embedding of `Model::new` (src/models/model.rs): reject an empty field
list, then reject the first duplicated field name, else construct the model. -/
def Model.new (id : Nat) (name : List Char) (fields : List Field) :
    Except AnkiError Model :=
  if fields = [] then
    .error (.validationError (("Model must have at least one field").toList))
  else
    match findDupName [] fields with
    | some n => .error (.validationError ((("Duplicate field name: ").toList) ++ n))
    | none => .ok { id := id, name := name, fields := fields }

/-- Embedding of `Model::get_field`: first field with the given name. -/
def Model.get_field (m : Model) (name : List Char) : Option Field :=
  m.fields.find? (fun f => f.name == name)

/-- Embedding of `Model::front_field`: first field whose name looks like a
front field. -/
def Model.front_field (m : Model) : Option Field :=
  m.fields.find? Field.is_front

/-- Embedding of `Model::back_field`: first field whose name looks like a
back field. -/
def Model.back_field (m : Model) : Option Field :=
  m.fields.find? Field.is_back

/-- The heuristic the spec describes for a front field name: case-insensitive
substring match on "front" or "question". Definition follows the words of the
spec, for comparison with the code. -/
def specIsFrontName (name : List Char) : Bool :=
  strContains (name.map asciiLower) (("front").toList) ||
  strContains (name.map asciiLower) (("question").toList)

lemma findDupName_eq_none_iff (fs : List Field) (seen : List (List Char)) :
    findDupName seen fs = none ↔
      (fs.map Field.name).Nodup ∧ ∀ f ∈ fs, f.name ∉ seen := by
  induction fs generalizing seen with
  | nil => simp [findDupName]
  | cons f rest ih =>
    by_cases h : f.name ∈ seen
    · simp only [findDupName, if_pos h]
      refine ⟨fun hco => by simp at hco, fun hco => absurd h ?_⟩
      exact hco.2 f (List.mem_cons_self f rest)
    · rw [findDupName, if_neg h, ih]
      constructor
      · rintro ⟨hnd, hall⟩
        constructor
        · rw [List.map_cons, List.nodup_cons]
          refine ⟨fun hmem => ?_, hnd⟩
          obtain ⟨g, hg, hgeq⟩ := List.mem_map.mp hmem
          exact (hall g hg) (by rw [hgeq]; exact List.mem_cons_self _ _)
        · intro g hg
          rcases List.mem_cons.mp hg with hgf | hgr
          · rw [hgf]; exact h
          · intro hmem
            exact (hall g hgr) (List.mem_cons_of_mem _ hmem)
      · rintro ⟨hnd2, hall2⟩
        rw [List.map_cons, List.nodup_cons] at hnd2
        refine ⟨hnd2.2, fun g hg => ?_⟩
        intro hmem
        rcases List.mem_cons.mp hmem with heq | hseen
        · exact hnd2.1 (List.mem_map.mpr ⟨g, hg, heq⟩)
        · exact (hall2 g (List.mem_cons_of_mem f hg)) hseen

/-- C5: `Model::new` fails exactly when the field list is empty or two fields
share a name, and every successfully constructed model carries the given
fields, hence at least one field and pairwise-distinct field names. -/
theorem model_new_validates :
    ∀ (id : Nat) (name : List Char) (fields : List Field),
      ((∃ e, Model.new id name fields = .error e) ↔
        (fields = [] ∨ ¬ (fields.map Field.name).Nodup)) ∧
      (∀ m : Model, Model.new id name fields = .ok m →
        m.id = id ∧ m.name = name ∧ m.fields = fields ∧
        m.fields ≠ [] ∧ (m.fields.map Field.name).Nodup) := by
  intro id name fields
  by_cases hemp : fields = []
  · subst hemp
    simp [Model.new]
  · have hiff := findDupName_eq_none_iff fields []
    simp only [List.not_mem_nil, not_false_iff, implies_true, and_true] at hiff
    cases hdup : findDupName [] fields with
    | some n =>
      have hnd : ¬ (fields.map Field.name).Nodup := by
        intro hco
        rw [← hiff] at hco
        rw [hdup] at hco
        simp at hco
      simp only [Model.new, if_neg hemp, hdup]
      constructor
      · exact ⟨fun _ => Or.inr hnd, fun _ => ⟨_, rfl⟩⟩
      · intro m hco
        simp at hco
    | none =>
      have hnd : (fields.map Field.name).Nodup := hiff.mp hdup
      simp only [Model.new, if_neg hemp, hdup]
      constructor
      · constructor
        · rintro ⟨e, he⟩
          simp at he
        · rintro (hco | hco)
          · exact absurd hco hemp
          · exact absurd hnd hco
      · intro m hm
        have hm2 : m = { id := id, name := name, fields := fields } := by
          simpa using hm.symm
        subst hm2
        exact ⟨rfl, rfl, rfl, hemp, hnd⟩

/-- Witness for C5: a concrete two-field model constructs successfully and
satisfies the invariant. -/
theorem model_new_validates_witness :
    Model.new 1 (("Basic").toList)
        [{ name := ("Front").toList, ord := 0 }, { name := ("Back").toList, ord := 1 }] =
      .ok { id := 1, name := ("Basic").toList,
            fields := [{ name := ("Front").toList, ord := 0 },
                       { name := ("Back").toList, ord := 1 }] } ∧
    ([{ name := ("Front").toList, ord := 0 },
      { name := ("Back").toList, ord := 1 }] : List Field) ≠ [] ∧
    (([{ name := ("Front").toList, ord := 0 },
       { name := ("Back").toList, ord := 1 }] : List Field).map Field.name).Nodup := by
  have h := (model_new_validates 1 (("Basic").toList)
      [{ name := ("Front").toList, ord := 0 }, { name := ("Back").toList, ord := 1 }]).2
    { id := 1, name := ("Basic").toList,
      fields := [{ name := ("Front").toList, ord := 0 },
                 { name := ("Back").toList, ord := 1 }] } (by rfl)
  exact ⟨by rfl, h.2.2.2.1, h.2.2.2.2⟩

lemma strContains_iff (s pat : List Char) : strContains s pat = true ↔ pat <:+: s := by
  induction s with
  | nil =>
    simp [strContains, List.isEmpty_iff, List.infix_nil]
  | cons c t ih =>
    rw [List.infix_cons_iff]
    simp [strContains, ih, List.isPrefixOf_iff_prefix]

/-- C7 counterexample: the field named "Front Side" matches the case-insensitive
substring heuristic described by the spec, but the code's `is_front` is false
because its substring checks are case-sensitive. -/
theorem front_heuristic_not_case_insensitive :
    specIsFrontName (("Front Side").toList) = true ∧
    Field.is_front { name := ("Front Side").toList, ord := 0 } = false := by
  decide

/-- C7 (amended): `is_front` holds iff the name equals "front" up to ASCII
case, or contains "front" or "question" as a case-sensitive substring (and
`is_back` analogously with "back"/"answer"); `front_field`/`back_field` return
the first field satisfying the respective predicate, or none when no field
satisfies it. -/
theorem front_back_heuristics :
    (∀ f : Field, f.is_front = true ↔
      (f.name.map asciiLower = ("front").toList ∨
       (("front").toList) <:+: f.name ∨ (("question").toList) <:+: f.name)) ∧
    (∀ f : Field, f.is_back = true ↔
      (f.name.map asciiLower = ("back").toList ∨
       (("back").toList) <:+: f.name ∨ (("answer").toList) <:+: f.name)) ∧
    (∀ m : Model, m.front_field = m.fields.find? Field.is_front ∧
      m.back_field = m.fields.find? Field.is_back) ∧
    (∀ (m : Model) (f : Field), m.front_field = some f → f ∈ m.fields ∧ f.is_front = true) ∧
    (∀ m : Model, m.front_field = none ↔ ∀ f ∈ m.fields, f.is_front = false) ∧
    (∀ (m : Model) (f : Field), m.back_field = some f → f ∈ m.fields ∧ f.is_back = true) ∧
    (∀ m : Model, m.back_field = none ↔ ∀ f ∈ m.fields, f.is_back = false) := by
  have hfr : (("front").toList).map asciiLower = ("front").toList := by decide
  have hbk : (("back").toList).map asciiLower = ("back").toList := by decide
  refine ⟨?_, ?_, fun m => ⟨rfl, rfl⟩, ?_, ?_, ?_, ?_⟩
  · intro f
    rw [Field.is_front]
    simp only [Bool.or_eq_true, eqIgnoreAsciiCase, beq_iff_eq, strContains_iff, or_assoc, hfr]
  · intro f
    rw [Field.is_back]
    simp only [Bool.or_eq_true, eqIgnoreAsciiCase, beq_iff_eq, strContains_iff, or_assoc, hbk]
  · intro m f hf
    exact ⟨List.mem_of_find?_eq_some hf, List.find?_some hf⟩
  · intro m
    rw [Model.front_field, List.find?_eq_none]
    simp
  · intro m f hf
    exact ⟨List.mem_of_find?_eq_some hf, List.find?_some hf⟩
  · intro m
    rw [Model.back_field, List.find?_eq_none]
    simp

/-- Witness for C7: a concrete model whose second field is named "front". -/
theorem front_back_heuristics_witness :
    ({ name := ("front").toList, ord := 1 } : Field) ∈
      ({ id := 7, name := ("M").toList,
         fields := [{ name := ("Extra").toList, ord := 0 },
                    { name := ("front").toList, ord := 1 }] } : Model).fields ∧
    Field.is_front { name := ("front").toList, ord := 1 } = true := by
  obtain ⟨-, -, -, hfr, -, -, -⟩ := front_back_heuristics
  exact hfr { id := 7, name := ("M").toList,
              fields := [{ name := ("Extra").toList, ord := 0 },
                         { name := ("front").toList, ord := 1 }] }
    { name := ("front").toList, ord := 1 } (by decide)

/-- Embedding of `MediaType` (src/models/media.rs). -/
inductive MediaType
  | audio
  | video
  | image
deriving DecidableEq, Repr

/-- Embedding of `MediaSource` (src/models/media.rs): exactly one of a local
path, a URL, or a base64 payload. -/
inductive MediaSource
  | path (p : List Char)
  | url (u : List Char)
  | base64 (data : List Char)
deriving DecidableEq, Repr

/-- Embedding of `Media` (src/models/media.rs). -/
structure Media where
  source : MediaSource
  filename : List Char
  media_type : MediaType
deriving DecidableEq, Repr

/-- Embedding of `Media::audio`. -/
def Media.audio (source : MediaSource) (filename : List Char) : Media :=
  { source := source, filename := filename, media_type := .audio }

/-- Embedding of `Media::image`. -/
def Media.image (source : MediaSource) (filename : List Char) : Media :=
  { source := source, filename := filename, media_type := .image }

/-- Embedding of `Media::video`. -/
def Media.video (source : MediaSource) (filename : List Char) : Media :=
  { source := source, filename := filename, media_type := .video }

/-- Embedding of `FieldMedia` (src/models/mod.rs): media plus its target
field name. -/
structure FieldMedia where
  media : Media
  field : List Char
deriving DecidableEq, Repr

/-- Embedding of the variant of `NoteError` (src/error.rs) produced by the
embedded note code. -/
inductive NoteError
  | unknownField (name : List Char)
deriving DecidableEq, Repr

/-- Embedding of `FieldRef` (src/models/model.rs): a pairing of a model and
one of its fields, obtainable only through `Model::field_ref`. -/
structure FieldRef where
  model : Model
  field : Field
deriving DecidableEq, Repr

/-- Embedding of `Model::field_ref`: a validated handle for a field. -/
def Model.field_ref (m : Model) (name : List Char) : Option FieldRef :=
  (m.get_field name).map (fun f => { model := m, field := f })

/-- Embedding of Rust `HashMap::insert` on an association list: replace the
value when the key is present, otherwise add the binding. -/
def insertAssoc : List (List Char × List Char) → List Char → List Char →
    List (List Char × List Char)
  | [], k, v => [(k, v)]
  | kv :: rest, k, v =>
    if kv.1 = k then (kv.1, v) :: rest else kv :: insertAssoc rest k v

/-- Embedding of Rust `HashSet::insert`: add the element when absent. -/
def setInsert (s : List (List Char)) (t : List Char) : List (List Char) :=
  if t ∈ s then s else s ++ [t]

/-- Embedding of `Note` (src/models/note.rs). -/
structure Note where
  id : Option Nat
  model : Model
  field_values : List (List Char × List Char)
  tags : List (List Char)
  media : List FieldMedia
deriving DecidableEq, Repr

/-- Embedding of `Note::new` (src/models/note.rs): reject the first field-value
key that is not a field of the model, then the first media attachment whose
target field is not a field of the model, else construct the note. -/
def Note.new (model : Model) (field_values : List (List Char × List Char))
    (tags : List (List Char)) (media : List FieldMedia) : Except NoteError Note :=
  match (field_values.map Prod.fst).find? (fun k => (model.get_field k).isNone) with
  | some k => .error (.unknownField k)
  | none =>
    match (media.map FieldMedia.field).find? (fun k => (model.get_field k).isNone) with
    | some k => .error (.unknownField k)
    | none =>
      .ok { id := none, model := model, field_values := field_values,
            tags := tags, media := media }

/-- Embedding of `Note::with_id`: validate as `Note::new`, then set the id. -/
def Note.with_id (id : Nat) (model : Model) (field_values : List (List Char × List Char))
    (tags : List (List Char)) (media : List FieldMedia) : Except NoteError Note :=
  (Note.new model field_values tags media).map (fun n => { n with id := some id })

/-- Embedding of `Note::update_field`: reject an unknown field name, else
insert the value under the name. -/
def Note.update_field (n : Note) (field_name : List Char) (value : List Char) :
    Except NoteError Note :=
  if (n.model.get_field field_name).isNone then
    .error (.unknownField field_name)
  else
    .ok { n with field_values := insertAssoc n.field_values field_name value }

/-- Embedding of `Note::add_tag`. -/
def Note.add_tag (n : Note) (tag : List Char) : Note :=
  { n with tags := setInsert n.tags tag }

/-- Embedding of `Note::remove_tag`: the updated note and whether the tag was
present. -/
def Note.remove_tag (n : Note) (tag : List Char) : Note × Bool :=
  ({ n with tags := n.tags.erase tag }, decide (tag ∈ n.tags))

/-- Embedding of `Note::add_media`: reject an unknown target field, else push
the attachment. -/
def Note.add_media (n : Note) (field_name : List Char) (m : Media) :
    Except NoteError Note :=
  if (n.model.get_field field_name).isNone then
    .error (.unknownField field_name)
  else
    .ok { n with media := n.media ++ [{ media := m, field := field_name }] }

/-- Embedding of `NoteBuilder` (src/builders/note.rs). -/
structure NoteBuilder where
  model : Model
  field_values : List (List Char × List Char)
  tags : List (List Char)
  media : List FieldMedia
deriving DecidableEq, Repr

/-- Embedding of `NoteBuilder::new`. -/
def NoteBuilder.new (m : Model) : NoteBuilder :=
  { model := m, field_values := [], tags := [], media := [] }

/-- Modelled from the spec: `html_escape::encode_text` is provided by the
external `html_escape` crate, whose source is not part of this repository;
the spec states that `with_field` HTML-escapes the content so that literal
angle brackets, ampersands and double quotes cannot corrupt the destination
rich-text renderer. Per-character escape map. -/
def htmlEscapeChar (c : Char) : List Char :=
  if c = '&' then ("&amp;").toList
  else if c = '<' then ("&lt;").toList
  else if c = '>' then ("&gt;").toList
  else if c = '"' then ("&quot;").toList
  else [c]

/-- Modelled from the spec: `html_escape::encode_text`, applying
`htmlEscapeChar` to every character of the content. -/
def encode_text : List Char → List Char
  | [] => []
  | c :: cs => htmlEscapeChar c ++ encode_text cs

/-- Embedding of `NoteBuilder::with_field`: store the HTML-escaped content
under the field's name (last write wins). -/
def NoteBuilder.with_field (nb : NoteBuilder) (fr : FieldRef) (content : List Char) :
    NoteBuilder :=
  { nb with field_values := insertAssoc nb.field_values fr.field.name (encode_text content) }

/-- Embedding of `NoteBuilder::with_field_raw`: store the content verbatim. -/
def NoteBuilder.with_field_raw (nb : NoteBuilder) (fr : FieldRef) (content : List Char) :
    NoteBuilder :=
  { nb with field_values := insertAssoc nb.field_values fr.field.name content }

/-- Embedding of `NoteBuilder::with_tag`: insert into the tag set. -/
def NoteBuilder.with_tag (nb : NoteBuilder) (tag : List Char) : NoteBuilder :=
  { nb with tags := setInsert nb.tags tag }

/-- Embedding of `NoteBuilder::with_media`: append the attachment targeting
the referenced field. -/
def NoteBuilder.with_media (nb : NoteBuilder) (fr : FieldRef) (m : Media) : NoteBuilder :=
  { nb with media := nb.media ++ [{ media := m, field := fr.field.name }] }

/-- Embedding of `NoteBuilder::with_audio`. -/
def NoteBuilder.with_audio (nb : NoteBuilder) (fr : FieldRef) (source : MediaSource)
    (filename : List Char) : NoteBuilder :=
  nb.with_media fr (Media.audio source filename)

/-- Embedding of `NoteBuilder::with_image`. -/
def NoteBuilder.with_image (nb : NoteBuilder) (fr : FieldRef) (source : MediaSource)
    (filename : List Char) : NoteBuilder :=
  nb.with_media fr (Media.image source filename)

/-- Embedding of `NoteBuilder::with_video`. -/
def NoteBuilder.with_video (nb : NoteBuilder) (fr : FieldRef) (source : MediaSource)
    (filename : List Char) : NoteBuilder :=
  nb.with_media fr (Media.video source filename)

/-- Embedding of `NoteBuilder::build`: delegate to the validating
`Note::new`. -/
def NoteBuilder.build (nb : NoteBuilder) : Except NoteError Note :=
  Note.new nb.model nb.field_values nb.tags nb.media

/-- The note invariant: every field-value key and every media target field
names an existing field of the model. -/
def NoteFieldsValid (n : Note) : Prop :=
  (∀ kv ∈ n.field_values, (n.model.get_field kv.1).isSome = true) ∧
  (∀ fm ∈ n.media, (n.model.get_field fm.field).isSome = true)

lemma isSome_iff_not_isNone {α : Type} (o : Option α) :
    o.isSome = true ↔ ¬ (o.isNone = true) := by
  cases o <;> simp

/-- C3: `NoteBuilder::build` returns an unknown-field error naming a stored
field name absent from the model whenever one exists, and otherwise returns Ok
with a note containing exactly the accumulated field values, tags and media. -/
theorem builder_build_rejects_unknown_fields :
    ∀ nb : NoteBuilder,
      ((∃ k, (k ∈ nb.field_values.map Prod.fst ∨ k ∈ nb.media.map FieldMedia.field) ∧
          (nb.model.get_field k).isNone = true) →
        ∃ g, nb.build = .error (.unknownField g) ∧
          (g ∈ nb.field_values.map Prod.fst ∨ g ∈ nb.media.map FieldMedia.field) ∧
          (nb.model.get_field g).isNone = true) ∧
      ((∀ k ∈ nb.field_values.map Prod.fst, (nb.model.get_field k).isSome = true) →
        (∀ fm ∈ nb.media, (nb.model.get_field fm.field).isSome = true) →
        nb.build = .ok { id := none, model := nb.model, field_values := nb.field_values,
                         tags := nb.tags, media := nb.media }) := by
  intro nb
  constructor
  · rintro ⟨k, hk, hnone⟩
    cases hf : (nb.field_values.map Prod.fst).find?
        (fun k => (nb.model.get_field k).isNone) with
    | some g =>
      refine ⟨g, ?_, Or.inl (List.mem_of_find?_eq_some hf), by simpa using List.find?_some hf⟩
      simp [NoteBuilder.build, Note.new, hf]
    | none =>
      have hkeys := List.find?_eq_none.mp hf
      cases hk with
      | inl hkf => exact absurd hnone (hkeys k hkf)
      | inr hkm =>
        have hsome : ((nb.media.map FieldMedia.field).find?
            (fun k => (nb.model.get_field k).isNone)).isSome = true :=
          List.find?_isSome.mpr ⟨k, hkm, hnone⟩
        cases hm : (nb.media.map FieldMedia.field).find?
            (fun k => (nb.model.get_field k).isNone) with
        | none => rw [hm] at hsome; simp at hsome
        | some g =>
          refine ⟨g, ?_, Or.inr (List.mem_of_find?_eq_some hm), by simpa using List.find?_some hm⟩
          simp [NoteBuilder.build, Note.new, hf, hm]
  · intro h1 h2
    have hf : (nb.field_values.map Prod.fst).find?
        (fun k => (nb.model.get_field k).isNone) = none := by
      rw [List.find?_eq_none]
      intro k hk
      exact (isSome_iff_not_isNone _).mp (h1 k hk)
    have hm : (nb.media.map FieldMedia.field).find?
        (fun k => (nb.model.get_field k).isNone) = none := by
      rw [List.find?_eq_none]
      intro k hk
      obtain ⟨fm, hfm, hfk⟩ := List.mem_map.mp hk
      rw [← hfk]
      exact (isSome_iff_not_isNone _).mp (h2 fm hfm)
    simp [NoteBuilder.build, Note.new, hf, hm]

/-- A concrete one-field model used by witnesses. -/
def exampleModel : Model :=
  { id := 1, name := ("Basic").toList, fields := [{ name := ("Front").toList, ord := 0 }] }

/-- Witness for C3: a builder whose only stored field exists in the model
builds successfully, with exactly the accumulated contents. -/
theorem builder_build_rejects_unknown_fields_witness :
    NoteBuilder.build
        { model := exampleModel, field_values := [(("Front").toList, ("x").toList)],
          tags := [("t").toList], media := [] } =
      .ok { id := none, model := exampleModel,
            field_values := [(("Front").toList, ("x").toList)],
            tags := [("t").toList], media := [] } := by
  obtain ⟨-, hok⟩ := builder_build_rejects_unknown_fields
    { model := exampleModel, field_values := [(("Front").toList, ("x").toList)],
      tags := [("t").toList], media := [] }
  exact hok (by decide) (by decide)

/-- C6: `with_field` stores the HTML-escaped content under the field's name
(touching nothing else), the escaping replaces each occurrence of an escaped
character by its escape sequence and keeps every other character (the
per-character flatMap characterisation), and no literal angle bracket or
double quote remains in the escaped text. -/
theorem with_field_stores_html_escaped :
    (∀ (nb : NoteBuilder) (fr : FieldRef) (content : List Char),
      (nb.with_field fr content).field_values =
        insertAssoc nb.field_values fr.field.name (encode_text content) ∧
      (nb.with_field fr content).tags = nb.tags ∧
      (nb.with_field fr content).media = nb.media) ∧
    (∀ content : List Char, encode_text content = content.flatMap htmlEscapeChar) ∧
    (∀ (content : List Char) (c : Char), c ∈ encode_text content →
      c ≠ '<' ∧ c ≠ '>' ∧ c ≠ '"') := by
  refine ⟨fun nb fr content => ⟨rfl, rfl, rfl⟩, ?_, ?_⟩
  · intro content
    induction content with
    | nil => rfl
    | cons c cs ih => simp [encode_text, ih]
  · intro content c
    induction content with
    | nil => simp [encode_text]
    | cons d cs ih =>
      intro hc
      rw [encode_text] at hc
      rcases List.mem_append.mp hc with h1 | h1
      · unfold htmlEscapeChar at h1
        split_ifs at h1 with hd1 hd2 hd3 hd4
        · simp at h1
          rcases h1 with rfl | rfl | rfl | rfl | rfl <;> refine ⟨by decide, by decide, by decide⟩
        · simp at h1
          rcases h1 with rfl | rfl | rfl | rfl <;> refine ⟨by decide, by decide, by decide⟩
        · simp at h1
          rcases h1 with rfl | rfl | rfl | rfl <;> refine ⟨by decide, by decide, by decide⟩
        · simp at h1
          rcases h1 with rfl | rfl | rfl | rfl | rfl | rfl <;>
            refine ⟨by decide, by decide, by decide⟩
        · simp at h1
          subst h1
          exact ⟨hd2, hd3, hd4⟩
      · exact ih h1

/-- Witness for C6: a character of the escaped text at a concrete input. -/
theorem with_field_stores_html_escaped_witness :
    ('a' ≠ '<' ∧ 'a' ≠ '>' ∧ 'a' ≠ '"') := by
  obtain ⟨-, -, h3⟩ := with_field_stores_html_escaped
  exact h3 (("a<b").toList) 'a' (by decide)

lemma setInsert_mem (s : List (List Char)) (t : List Char) : t ∈ setInsert s t := by
  unfold setInsert
  split
  · assumption
  · simp

lemma setInsert_of_mem (s : List (List Char)) (t : List Char) (h : t ∈ s) :
    setInsert s t = s := by
  simp [setInsert, h]

/-- C8: adding the same tag twice collapses: `with_tag` is idempotent, adding
an already-present tag changes nothing, the tag is a member afterwards, and
the built note after adding twice equals the one after adding once. -/
theorem with_tag_idempotent :
    (∀ (nb : NoteBuilder) (t : List Char), (nb.with_tag t).with_tag t = nb.with_tag t) ∧
    (∀ (nb : NoteBuilder) (t : List Char), t ∈ nb.tags → nb.with_tag t = nb) ∧
    (∀ (nb : NoteBuilder) (t : List Char), t ∈ (nb.with_tag t).tags) ∧
    (∀ (nb : NoteBuilder) (t : List Char),
      ((nb.with_tag t).with_tag t).build = (nb.with_tag t).build) := by
  have h1 : ∀ (nb : NoteBuilder) (t : List Char),
      (nb.with_tag t).with_tag t = nb.with_tag t := by
    intro nb t
    simp [NoteBuilder.with_tag, setInsert_of_mem _ _ (setInsert_mem _ _)]
  refine ⟨h1, ?_, ?_, fun nb t => congrArg NoteBuilder.build (h1 nb t)⟩
  · intro nb t h
    simp [NoteBuilder.with_tag, setInsert_of_mem _ _ h]
  · intro nb t
    exact setInsert_mem _ _

/-- Witness for C8: adding a tag already present leaves a concrete builder
unchanged. -/
theorem with_tag_idempotent_witness :
    NoteBuilder.with_tag
        { model := exampleModel, field_values := [], tags := [("x").toList], media := [] }
        (("x").toList) =
      { model := exampleModel, field_values := [], tags := [("x").toList], media := [] } := by
  obtain ⟨-, h2, -, -⟩ := with_tag_idempotent
  exact h2 { model := exampleModel, field_values := [], tags := [("x").toList], media := [] }
    (("x").toList) (by decide)

lemma mem_insertAssoc {l : List (List Char × List Char)} {k v : List Char}
    {kv : List Char × List Char} (h : kv ∈ insertAssoc l k v) : kv.1 = k ∨ kv ∈ l := by
  induction l with
  | nil =>
    simp [insertAssoc] at h
    rw [h]
    exact Or.inl rfl
  | cons kv0 rest ih =>
    rw [insertAssoc] at h
    by_cases h0 : kv0.1 = k
    · rw [if_pos h0] at h
      rcases List.mem_cons.mp h with h1 | h1
      · left
        rw [h1]
        exact h0
      · right
        exact List.mem_cons_of_mem _ h1
    · rw [if_neg h0] at h
      rcases List.mem_cons.mp h with h1 | h1
      · right
        rw [h1]
        exact List.mem_cons_self _ _
      · rcases ih h1 with h2 | h2
        · exact Or.inl h2
        · exact Or.inr (List.mem_cons_of_mem _ h2)

lemma note_new_ok_valid {model : Model} {fvs : List (List Char × List Char)}
    {tags : List (List Char)} {media : List FieldMedia} {n : Note}
    (hok : Note.new model fvs tags media = .ok n) : NoteFieldsValid n := by
  unfold Note.new at hok
  cases hf : (fvs.map Prod.fst).find? (fun k => (model.get_field k).isNone) with
  | some k => rw [hf] at hok; simp at hok
  | none =>
    rw [hf] at hok
    cases hm : (media.map FieldMedia.field).find? (fun k => (model.get_field k).isNone) with
    | some k => rw [hm] at hok; simp at hok
    | none =>
      rw [hm] at hok
      simp only [Except.ok.injEq] at hok
      subst hok
      constructor
      · intro kv hkv
        exact (isSome_iff_not_isNone _).mpr
          (List.find?_eq_none.mp hf kv.1 (List.mem_map.mpr ⟨kv, hkv, rfl⟩))
      · intro fm hfm
        exact (isSome_iff_not_isNone _).mpr
          (List.find?_eq_none.mp hm fm.field (List.mem_map.mpr ⟨fm, hfm, rfl⟩))

/-- C9: the unknown-field invariant is established by `Note::new` and
`Note::with_id` and preserved by every mutating operation: `update_field` and
`add_media` reject unknown names with an error (producing no note) and
preserve validity on success, while `add_tag` and `remove_tag` do not touch
field values or media. -/
theorem note_operations_preserve_validity :
    (∀ (model : Model) (fvs : List (List Char × List Char)) (tags : List (List Char))
        (media : List FieldMedia) (n : Note),
      Note.new model fvs tags media = .ok n → NoteFieldsValid n) ∧
    (∀ (id : Nat) (model : Model) (fvs : List (List Char × List Char))
        (tags : List (List Char)) (media : List FieldMedia) (n : Note),
      Note.with_id id model fvs tags media = .ok n → NoteFieldsValid n) ∧
    (∀ (n : Note) (k v : List Char), n.model.get_field k = none →
      n.update_field k v = .error (.unknownField k)) ∧
    (∀ (n : Note) (k v : List Char) (n2 : Note), NoteFieldsValid n →
      n.update_field k v = .ok n2 → NoteFieldsValid n2) ∧
    (∀ (n : Note) (k : List Char) (m : Media), n.model.get_field k = none →
      n.add_media k m = .error (.unknownField k)) ∧
    (∀ (n : Note) (k : List Char) (m : Media) (n2 : Note), NoteFieldsValid n →
      n.add_media k m = .ok n2 → NoteFieldsValid n2) ∧
    (∀ (n : Note) (t : List Char),
      (n.add_tag t).field_values = n.field_values ∧ (n.add_tag t).media = n.media ∧
      (NoteFieldsValid n → NoteFieldsValid (n.add_tag t))) ∧
    (∀ (n : Note) (t : List Char),
      (n.remove_tag t).1.field_values = n.field_values ∧
      (n.remove_tag t).1.media = n.media ∧
      (NoteFieldsValid n → NoteFieldsValid (n.remove_tag t).1)) := by
  refine ⟨fun model fvs tags media n hok => note_new_ok_valid hok, ?_, ?_, ?_, ?_, ?_,
    fun n t => ⟨rfl, rfl, fun h => h⟩, fun n t => ⟨rfl, rfl, fun h => h⟩⟩
  · intro id model fvs tags media n hok
    unfold Note.with_id at hok
    cases hnew : Note.new model fvs tags media with
    | error e => rw [hnew] at hok; simp [Except.map] at hok
    | ok n0 =>
      rw [hnew] at hok
      simp only [Except.map, Except.ok.injEq] at hok
      subst hok
      have hv := note_new_ok_valid hnew
      exact ⟨hv.1, hv.2⟩
  · intro n k v h
    simp [Note.update_field, h]
  · intro n k v n2 hval hok
    unfold Note.update_field at hok
    by_cases hc : (n.model.get_field k).isNone = true
    · rw [if_pos hc] at hok
      simp at hok
    · rw [if_neg hc] at hok
      simp only [Except.ok.injEq] at hok
      subst hok
      refine ⟨?_, hval.2⟩
      intro kv hkv
      rcases mem_insertAssoc hkv with h1 | h1
      · rw [h1]
        exact (isSome_iff_not_isNone _).mpr hc
      · exact hval.1 kv h1
  · intro n k m h
    simp [Note.add_media, h]
  · intro n k m n2 hval hok
    unfold Note.add_media at hok
    by_cases hc : (n.model.get_field k).isNone = true
    · rw [if_pos hc] at hok
      simp at hok
    · rw [if_neg hc] at hok
      simp only [Except.ok.injEq] at hok
      subst hok
      refine ⟨hval.1, ?_⟩
      intro fm hfm
      rcases List.mem_append.mp hfm with h1 | h1
      · exact hval.2 fm h1
      · simp only [List.mem_singleton] at h1
        rw [h1]
        exact (isSome_iff_not_isNone _).mpr hc

/-- Witness for C9: updating an unknown field of a concrete note errors. -/
theorem note_operations_preserve_validity_witness :
    Note.update_field
        { id := none, model := exampleModel,
          field_values := [(("Front").toList, ("x").toList)], tags := [], media := [] }
        (("Back").toList) (("y").toList) =
      .error (.unknownField (("Back").toList)) := by
  obtain ⟨-, -, h3, -, -, -, -, -⟩ := note_operations_preserve_validity
  exact h3 { id := none, model := exampleModel,
             field_values := [(("Front").toList, ("x").toList)], tags := [], media := [] }
    (("Back").toList) (("y").toList) (by decide)

end AnkiRs
